import Mathlib

/-!
Shallow embedding of the transactional caching layer in
src/cache/db_cache.cpp: the bounded recency cache `Cache`, the flat-file
store (modelled at the collaborator-contract level of spec section 6, as a
list of key-value lines), and the facade `CachedFileDatabase` as a state
machine over a single caller's view (the caller's thread-local transaction
buffer plus the shared cache and store).
-/

namespace DBCache

/-- A cache entry pairs a key with an optional value; `none` is a tombstone
(mirrors `std::pair<std::string, std::optional<std::string>>`). -/
abbrev Entry := String × Option String

/-- Model of `Cache` from src/cache/db_cache.cpp: `capacity` mirrors
`m_capacity`, `order` mirrors the list `m_cache` (front = most recently
used), and `index` mirrors the key set of the map `m_cache_map` (the
iterator values of the map are recoverable from `order`, so only the key
set is carried). -/
structure Cache where
  capacity : Nat
  order : List Entry
  index : List String
deriving Repr, DecidableEq

/-- Model of the constructor `Cache(capacity)`: empty list, empty map. -/
def Cache.init (capacity : Nat) : Cache :=
  { capacity := capacity, order := [], index := [] }

/-- Removes the first entry holding the given key: this is how
`move_to_front` splices out the one list node that `m_cache_map[key]`
points to (a map holds at most one node per key). -/
def eraseEntry : List Entry → String → List Entry
  | [], _ => []
  | p :: ps, k => if p.1 = k then ps else p :: eraseEntry ps k

/-- Key of the back entry of the cache list, as `m_cache.back().first`
reads it (only ever called on a nonempty list in the source). -/
def backKey (l : List Entry) : Option String :=
  (l.getLast?).map Prod.fst

/-- Model of `Cache::put`: if the key is already in the map, overwrite its
value and move the entry to the front; otherwise, if the list is at
capacity, evict the back entry and erase its map slot (a map erase removes
the unique entry with that key, modelled as a filter), then push the new
entry to the front and add it to the map. The `none` branch of `backKey`
is the source's undefined call of `back()` on an empty list (reachable
only at capacity 0, which the facade never constructs); it is determinised
to a plain push. -/
def Cache.put (c : Cache) (key : String) (value : Option String) : Cache :=
  if key ∈ c.index then
    { c with order := (key, value) :: eraseEntry c.order key }
  else if c.capacity ≤ c.order.length then
    match backKey c.order with
    | some b =>
        { c with
          order := (key, value) :: c.order.dropLast,
          index := key :: c.index.filter (fun x => x ≠ b) }
    | none =>
        { c with order := [(key, value)], index := key :: c.index }
  else
    { c with order := (key, value) :: c.order, index := key :: c.index }

/-- Model of `Cache::get`: if the key is in the map, return `true` and its
value and move the entry to the front; otherwise return `false`, leave the
cache untouched, and leave the out-parameter at its caller-initialised
`none`. The inner `none` branch is unreachable whenever `index` and
`order` are consistent. -/
def Cache.get (c : Cache) (key : String) : Bool × Option String × Cache :=
  if key ∈ c.index then
    match c.order.find? (fun p => p.1 = key) with
    | some p => (true, p.2, { c with order := (key, p.2) :: eraseEntry c.order key })
    | none => (true, none, c)
  else
    (false, none, c)

/-- Model of the flat-file store at the collaborator-contract level of spec
section 6: each `{key}={value}` line of the file is one pair, in file
order. The physical line syntax is not normative (spec section 6), so the
pair list is the state. -/
structure Store where
  pairs : List (String × String)
deriving Repr, DecidableEq

/-- Model of `file_get_value`: value of the first line whose key matches,
empty string when no line matches. -/
def Store.read (st : Store) (key : String) : String :=
  match st.pairs.find? (fun p => p.1 = key) with
  | some p => p.2
  | none => ""

/-- Replace the first pair holding the given key, or append a new pair at
the end when no line matches: the line-rewriting loop of
`file_write_or_delete(false, key, value)`. Also reused as the determinised
upsert of the map `ts_transaction_data` (insertion order stands in for the
unspecified `unordered_map` order). -/
def writePairs : List (String × String) → String → String → List (String × String)
  | [], k, v => [(k, v)]
  | p :: ps, k, v => if p.1 = k then (k, v) :: ps else p :: writePairs ps k v

/-- Model of `file_write_key_value`. -/
def Store.write (st : Store) (key value : String) : Store :=
  { pairs := writePairs st.pairs key value }

/-- Drop the first pair holding the given key, keep everything else: the
line-skipping loop of `file_write_or_delete(true, key, "")`. -/
def deletePairs : List (String × String) → String → List (String × String)
  | [], _ => []
  | p :: ps, k => if p.1 = k then ps else p :: deletePairs ps k

/-- Model of `file_delete_key`. -/
def Store.erase (st : Store) (key : String) : Store :=
  { pairs := deletePairs st.pairs key }

/-- One caller's view of `CachedFileDatabase`: the shared cache
(`m_local_cache`, absent when constructed with `cache_size <= 0`), the
store file, and the caller's thread-local transaction buffer
(`ts_transaction_active`, `ts_transaction_data`, `ts_transaction_deletes`).
The buffer map and set are determinised as duplicate-free lists; erasing
from them is a filter, which agrees with the container erase on every
state a map or set can represent. -/
structure DBState where
  cache : Option Cache
  store : Store
  txActive : Bool
  txData : List (String × String)
  txDeletes : List String
deriving Repr, DecidableEq

/-- Model of the constructor `CachedFileDatabase(file, cache_size)`: the
cache exists only when `cache_size > 0`; the buffer starts inactive and
empty. -/
def DBState.init (st : Store) (cache_size : Int) : DBState :=
  { cache := if 0 < cache_size then some (Cache.init cache_size.toNat) else none,
    store := st, txActive := false, txData := [], txDeletes := [] }

/-- Model of `CachedFileDatabase::begin_transaction`. -/
def begin_transaction (s : DBState) : Bool × DBState :=
  if s.txActive then (false, s)
  else (true, { s with txActive := true, txData := [], txDeletes := [] })

/-- Model of `CachedFileDatabase::abort_transaction`. -/
def abort_transaction (s : DBState) : Bool × DBState :=
  if s.txActive then
    (true, { s with txActive := false, txData := [], txDeletes := [] })
  else (false, s)

/-- Model of `CachedFileDatabase::commit_transaction`: apply every staged
write to the store and (when the cache exists) to the cache, then every
staged delete as a store erase and a cache tombstone put, then clear the
buffer and deactivate. -/
def commit_transaction (s : DBState) : Bool × DBState :=
  if s.txActive then
    let s1 := s.txData.foldl
      (fun st p =>
        { st with
          store := st.store.write p.1 p.2,
          cache := st.cache.map (fun c => c.put p.1 (some p.2)) }) s
    let s2 := s.txDeletes.foldl
      (fun st k =>
        { st with
          store := st.store.erase k,
          cache := st.cache.map (fun c => c.put k none) }) s1
    (true, { s2 with txActive := false, txData := [], txDeletes := [] })
  else (false, s)

/-- Model of `CachedFileDatabase::get_key`: outside a transaction return
the empty-string sentinel; otherwise consult the buffered deletes, then
the buffered writes, then the cache; on a cache miss read the store and
then put `none` into the cache for the key — the source's line 322 puts
`std::nullopt`, not the value just read. -/
def get_key (s : DBState) (key : String) : String × DBState :=
  if s.txActive then
    if key ∈ s.txDeletes then ("", s)
    else
      match s.txData.find? (fun p => p.1 = key) with
      | some p => (p.2, s)
      | none =>
          match s.cache with
          | some c =>
              match c.get key with
              | (true, tmp, c2) => (tmp.getD "", { s with cache := some c2 })
              | (false, _, c2) =>
                  (s.store.read key, { s with cache := some (c2.put key none) })
          | none => (s.store.read key, s)
  else ("", s)

/-- Model of `CachedFileDatabase::set_key`: outside a transaction return
the sentinel; otherwise read the old value through `get_key` (which may
reorder or populate the cache), stage the write, and unstage any delete of
the key. -/
def set_key (s : DBState) (key data : String) : String × DBState :=
  if s.txActive then
    let r := get_key s key
    (r.1, { r.2 with
            txData := writePairs r.2.txData key data,
            txDeletes := r.2.txDeletes.filter (fun x => x ≠ key) })
  else ("", s)

/-- Model of `CachedFileDatabase::delete_key`: outside a transaction return
the sentinel; otherwise read the old value through `get_key`, unstage any
write of the key, and stage the delete (set insert: no duplicate). -/
def delete_key (s : DBState) (key : String) : String × DBState :=
  if s.txActive then
    let r := get_key s key
    (r.1, { r.2 with
            txData := r.2.txData.filter (fun p => p.1 ≠ key),
            txDeletes := if key ∈ r.2.txDeletes then r.2.txDeletes
                         else key :: r.2.txDeletes })
  else ("", s)

/-- One facade operation, for quantifying over call sequences. -/
inductive DBOp where
  | beginTx : DBOp
  | commitTx : DBOp
  | abortTx : DBOp
  | getK : String → DBOp
  | setK : String → String → DBOp
  | delK : String → DBOp
deriving Repr, DecidableEq

/-- State transition of one facade operation (result value discarded). -/
def applyOp (s : DBState) : DBOp → DBState
  | .beginTx => (begin_transaction s).2
  | .commitTx => (commit_transaction s).2
  | .abortTx => (abort_transaction s).2
  | .getK k => (get_key s k).2
  | .setK k v => (set_key s k v).2
  | .delK k => (delete_key s k).2

/-! Helper lemmas shared by the theorems. -/

/-- `get_key` never changes the store. -/
theorem get_key_store (s : DBState) (key : String) :
    (get_key s key).2.store = s.store := by
  unfold get_key
  repeat' split
  all_goals rfl

/-- `get_key` never changes the active flag. -/
theorem get_key_txActive (s : DBState) (key : String) :
    (get_key s key).2.txActive = s.txActive := by
  unfold get_key
  repeat' split
  all_goals rfl

/-- `get_key` never changes the buffered writes. -/
theorem get_key_txData (s : DBState) (key : String) :
    (get_key s key).2.txData = s.txData := by
  unfold get_key
  repeat' split
  all_goals rfl

/-- `get_key` never changes the buffered deletes. -/
theorem get_key_txDeletes (s : DBState) (key : String) :
    (get_key s key).2.txDeletes = s.txDeletes := by
  unfold get_key
  repeat' split
  all_goals rfl

/-- `get_key` keeps the cache present exactly when it was present. -/
theorem get_key_cache_isSome (s : DBState) (key : String) :
    ((get_key s key).2.cache).isSome = s.cache.isSome := by
  unfold get_key
  repeat' split
  all_goals (first | rfl | simp_all)

/-- After an upsert of key k, the first entry found for k holds the new
value. -/
theorem find_writePairs (l : List (String × String)) (k v : String) :
    (writePairs l k v).find? (fun p => p.1 = k) = some (k, v) := by
  induction l with
  | nil => simp [writePairs]
  | cons p ps ih =>
      by_cases h : p.1 = k
      · simp [writePairs, h]
      · simp [writePairs, h, ih]

/-! Theorems. -/

/-- C3: within one active transaction, get_key(k) right after set_key(k, v)
returns v — the caller observes its own uncommitted write — for every key,
value, and prior contents of cache, store and buffer. -/
theorem c3_read_your_own_writes (s : DBState) (k v : String)
    (h : s.txActive = true) :
    (get_key (set_key s k v).2 k).1 = v := by
  have hA : ((set_key s k v).2).txActive = true := by
    unfold set_key
    rw [h]
    simp [get_key_txActive, h]
  have hD : k ∉ ((set_key s k v).2).txDeletes := by
    unfold set_key
    rw [h]
    simp [List.mem_filter]
  have hF : ((set_key s k v).2).txData.find? (fun p => p.1 = k)
      = some (k, v) := by
    unfold set_key
    rw [h]
    simp [find_writePairs]
  unfold get_key
  rw [hA]
  simp [hD, hF]

/-- Keys present after an upsert: the upserted key plus the old keys. -/
theorem mem_map_fst_writePairs (l : List (String × String)) (k v x : String) :
    x ∈ (writePairs l k v).map Prod.fst ↔ x = k ∨ x ∈ l.map Prod.fst := by
  induction l with
  | nil => simp [writePairs]
  | cons p ps ih =>
      by_cases h : p.1 = k
      · simp [writePairs, h]
      · simp [writePairs, h, ih]
        tauto

/-- Erasing the first entry with a key erases that key from the key
list. -/
theorem eraseEntry_map_fst (l : List Entry) (k : String) :
    (eraseEntry l k).map Prod.fst = (l.map Prod.fst).erase k := by
  induction l with
  | nil => simp [eraseEntry]
  | cons p ps ih =>
      by_cases h : p.1 = k
      · simp [eraseEntry, h, List.erase_cons]
      · simp [eraseEntry, List.erase_cons, h, ih]

/-- C6 invariant, as spec section 3 states it for the cache: at most
`capacity` entries, every key at most once in the recency order, and the
map keys agreeing with the order keys (mutual consistency of `index` and
`order`). -/
def Cache.WF (c : Cache) : Prop :=
  c.order.length ≤ c.capacity
  ∧ (c.order.map Prod.fst).Nodup
  ∧ ∀ x : String, x ∈ c.index ↔ x ∈ c.order.map Prod.fst

/-- `put` never changes the capacity. -/
theorem put_capacity (c : Cache) (k : String) (v : Option String) :
    (c.put k v).capacity = c.capacity := by
  unfold Cache.put
  repeat' split
  all_goals rfl

/-- One `put` preserves the cache invariant on a positive-capacity
cache. -/
theorem put_WF (c : Cache) (k : String) (v : Option String)
    (hcap : 0 < c.capacity) (h : c.WF) : (c.put k v).WF := by
  obtain ⟨hlen, hnd, hcons⟩ := h
  unfold Cache.put
  split
  · rename_i hk
    have hkord : k ∈ c.order.map Prod.fst := (hcons k).1 hk
    have hpos : 0 < c.order.length := by
      rw [List.length_pos]
      intro h0
      simp [h0] at hkord
    have herlen : (eraseEntry c.order k).length = c.order.length - 1 := by
      have hmapl := congrArg List.length (eraseEntry_map_fst c.order k)
      simpa [List.length_erase_of_mem hkord] using hmapl
    refine ⟨?_, ?_, ?_⟩
    · simp only [List.length_cons, herlen]
      omega
    · simp only [List.map_cons, eraseEntry_map_fst, List.nodup_cons]
      refine ⟨?_, hnd.erase k⟩
      intro hmem
      exact ((List.Nodup.mem_erase_iff hnd).1 hmem).1 rfl
    · intro x
      simp only [List.map_cons, eraseEntry_map_fst, List.mem_cons,
        List.Nodup.mem_erase_iff hnd]
      rw [hcons x]
      constructor
      · intro hx
        by_cases hxk : x = k
        · exact Or.inl hxk
        · exact Or.inr ⟨hxk, hx⟩
      · rintro (rfl | ⟨_, hx⟩)
        · exact hkord
        · exact hx
  · rename_i hk
    have hknord : k ∉ c.order.map Prod.fst := fun hm => hk ((hcons k).2 hm)
    split
    · rename_i hge
      split
      · rename_i b hb
        rcases List.eq_nil_or_concat c.order with hnil | ⟨L, q, hLq⟩
        · simp [backKey, hnil] at hb
        · rw [List.concat_eq_append] at hLq
          rw [hLq] at hlen hnd hknord hb hcons ⊢
          have hq : q.1 = b := by
            simpa [backKey, List.getLast?_concat] using hb
          have hksplit : (L ++ [q]).map Prod.fst = L.map Prod.fst ++ [q.1] := by
            simp
          rw [hksplit] at hnd hknord
          rw [List.nodup_append] at hnd
          obtain ⟨hndL, _, hdisj⟩ := hnd
          have hbnotL : q.1 ∉ L.map Prod.fst := fun hm => hdisj hm (by simp)
          have hknL : k ∉ L.map Prod.fst := fun hm => hknord (by simp [hm])
          refine ⟨?_, ?_, ?_⟩
          · simpa [List.dropLast_concat] using hlen
          · simp only [List.dropLast_concat, List.map_cons, List.nodup_cons]
            exact ⟨hknL, hndL⟩
          · intro x
            simp only [List.dropLast_concat, List.map_cons, List.mem_cons,
              List.mem_filter]
            rw [hcons x, hksplit]
            simp only [List.mem_append, List.mem_singleton, hq]
            constructor
            · rintro (rfl | ⟨hxin, hxb⟩)
              · exact Or.inl rfl
              · simp at hxb
                rcases hxin with hin | rfl
                · exact Or.inr hin
                · exact absurd rfl hxb
            · rintro (rfl | hin)
              · exact Or.inl rfl
              · refine Or.inr ⟨Or.inl hin, ?_⟩
                simp
                intro hebq
                rw [hebq, ← hq] at hin
                exact hbnotL hin
      · rename_i hb
        have : c.order = [] := by
          simpa [backKey, List.getLast?_eq_none_iff] using hb
        rw [this] at hge
        simp at hge
        omega
    · rename_i hlt
      refine ⟨?_, ?_, ?_⟩
      · simp only [List.length_cons]
        omega
      · simp only [List.map_cons, List.nodup_cons]
        exact ⟨hknord, hnd⟩
      · intro x
        simp only [List.map_cons, List.mem_cons]
        rw [hcons x]

/-- Any sequence of puts preserves the cache invariant. -/
theorem foldl_put_WF (ops : List (String × Option String)) (c : Cache)
    (hcap : 0 < c.capacity) (h : c.WF) :
    (ops.foldl (fun a p => a.put p.1 p.2) c).WF := by
  induction ops generalizing c with
  | nil => exact h
  | cons p ps ih =>
      refine ih _ ?_ (put_WF _ _ _ hcap h)
      rw [put_capacity]
      exact hcap

/-- C6: on a cache constructed with capacity > 0, after every sequence of
put operations the cache holds at most `capacity` entries, every key in
the recency order appears exactly once, and the key index and the recency
order remain mutually consistent. -/
theorem c6_cache_invariants (cap : Nat) (hcap : 0 < cap)
    (ops : List (String × Option String)) :
    Cache.WF (ops.foldl (fun a p => a.put p.1 p.2) (Cache.init cap)) :=
  foldl_put_WF ops (Cache.init cap) hcap
    ⟨by simp [Cache.init], by simp [Cache.init], by simp [Cache.init]⟩

/-- Witness for C6 at a concrete capacity and put sequence. -/
theorem c6_witness :
    0 < 2 ∧ Cache.WF ([("A", some "1"), ("B", some "2"), ("C", none),
      ("A", some "3")].foldl (fun a p => a.put p.1 p.2) (Cache.init 2)) :=
  ⟨by decide, c6_cache_invariants 2 (by decide) _⟩

/-- After deleting a key from a duplicate-free line list, no line with
that key remains to be found. -/
theorem find_deletePairs (l : List (String × String)) (k : String)
    (h : (l.map Prod.fst).Nodup) :
    (deletePairs l k).find? (fun p => p.1 = k) = none := by
  induction l with
  | nil => simp [deletePairs]
  | cons p ps ih =>
      simp only [List.map_cons, List.nodup_cons] at h
      by_cases hp : p.1 = k
      · simp only [deletePairs, if_pos hp]
        rw [List.find?_eq_none]
        intro x hx
        simp only [decide_eq_true_eq]
        intro hxk
        refine h.1 ?_
        rw [hp, ← hxk]
        exact List.mem_map_of_mem Prod.fst hx
      · simp [deletePairs, hp, ih h.2]

/-- Reading a key right after deleting it from a duplicate-free store
yields the empty string. -/
theorem read_erase_self (st : Store) (k : String)
    (h : (st.pairs.map Prod.fst).Nodup) :
    (st.erase k).read k = "" := by
  unfold Store.erase Store.read
  rw [find_deletePairs st.pairs k h]

/-- After `put k v` the key k is in the cache map. -/
theorem put_mem_index (c : Cache) (k : String) (v : Option String) :
    k ∈ (c.put k v).index := by
  unfold Cache.put
  repeat' split
  all_goals simp_all

/-- After `put k v` the first entry found for k is (k, v): the put entry
sits at the front of the recency order. -/
theorem put_find_self (c : Cache) (k : String) (v : Option String) :
    ((c.put k v).order).find? (fun p => p.1 = k) = some (k, v) := by
  unfold Cache.put
  repeat' split
  all_goals simp [List.find?]

/-- A cache get right after `put k v` hits and returns v. -/
theorem get_put_self (c : Cache) (k : String) (v : Option String) :
    ((c.put k v).get k).1 = true ∧ ((c.put k v).get k).2.1 = v := by
  unfold Cache.get
  rw [if_pos (put_mem_index c k v), put_find_self]
  simp

/-- Shape of `delete_key` on an active empty buffer: the internal read may
touch the cache, then the single delete is staged. -/
theorem delete_key_on_empty_buffer (u : DBState) (k : String)
    (hA : u.txActive = true) (hD : u.txData = []) (hDel : u.txDeletes = []) :
    (delete_key u k).2
      = { (get_key u k).2 with txData := [], txDeletes := [k] } := by
  unfold delete_key
  rw [hA]
  simp [get_key_txData, get_key_txDeletes, hD, hDel]

/-- Shape of a commit whose buffer stages exactly one delete of k: the
store line for k is removed and, when the cache exists, a tombstone for k
is put into it. -/
theorem commit_single_delete (u : DBState) (k : String)
    (hA : u.txActive = true) :
    (commit_transaction { u with txData := [], txDeletes := [k] }).2
      = { u with
          cache := u.cache.map (fun c => c.put k none),
          store := u.store.erase k,
          txActive := false, txData := [], txDeletes := [] } := by
  unfold commit_transaction
  simp [hA, List.foldl]

/-- C9 invariant: no key is both a buffered write and a buffered delete. -/
def BufferDisjoint (s : DBState) : Prop :=
  ∀ x : String, x ∈ s.txData.map Prod.fst → x ∉ s.txDeletes

/-- Every single facade operation preserves buffer disjointness. -/
theorem applyOp_disjoint (s : DBState) (op : DBOp) (h : BufferDisjoint s) :
    BufferDisjoint (applyOp s op) := by
  cases op with
  | beginTx =>
      show BufferDisjoint (begin_transaction s).2
      unfold begin_transaction
      split
      · exact h
      · intro x hx
        simp at hx
  | commitTx =>
      show BufferDisjoint (commit_transaction s).2
      unfold commit_transaction
      split
      · intro x hx
        simp at hx
      · exact h
  | abortTx =>
      show BufferDisjoint (abort_transaction s).2
      unfold abort_transaction
      split
      · intro x hx
        simp at hx
      · exact h
  | getK k =>
      show BufferDisjoint (get_key s k).2
      intro x hx
      rw [get_key_txData] at hx
      rw [get_key_txDeletes]
      exact h x hx
  | setK k v =>
      show BufferDisjoint (set_key s k v).2
      unfold set_key
      split
      · intro x hx
        simp only [get_key_txData, get_key_txDeletes, mem_map_fst_writePairs] at *
        rcases hx with hk | hmem
        · subst hk
          simp [List.mem_filter]
        · intro hmemdel
          rw [List.mem_filter] at hmemdel
          exact h x hmem hmemdel.1
      · exact h
  | delK k =>
      show BufferDisjoint (delete_key s k).2
      unfold delete_key
      split
      · intro x hx
        simp only [get_key_txData, get_key_txDeletes, List.mem_map] at *
        rcases hx with ⟨p, hp, hpx⟩
        rw [List.mem_filter] at hp
        have hxk : x ≠ k := by
          subst hpx
          simpa using hp.2
        have hxold : x ∉ s.txDeletes := h x (List.mem_map.2 ⟨p, hp.1, hpx⟩)
        split
        · exact hxold
        · intro hmem
          rcases List.mem_cons.1 hmem with rfl | hmem2
          · exact hxk rfl
          · exact hxold hmem2
      · exact h

/-- C9: starting from any state whose buffer maps are disjoint (as the
fresh facade's empty buffers are), every sequence of begin, commit, abort,
get_key, set_key and delete_key operations keeps the buffered writes and
buffered deletes disjoint: set_key removes the key from the deletes,
delete_key removes it from the writes, and begin, commit and abort clear
both. -/
theorem c9_writes_deletes_disjoint (s0 : DBState) (h : BufferDisjoint s0)
    (ops : List DBOp) :
    BufferDisjoint (ops.foldl applyOp s0) := by
  induction ops generalizing s0 with
  | nil => exact h
  | cons op rest ih => exact ih _ (applyOp_disjoint s0 op h)

/-- Witness for C9 at a concrete initial state and operation sequence. -/
theorem c9_witness :
    BufferDisjoint (DBState.init ⟨[]⟩ 1)
    ∧ BufferDisjoint ([DBOp.beginTx, DBOp.setK "a" "1", DBOp.delK "a",
        DBOp.setK "b" "2"].foldl applyOp (DBState.init ⟨[]⟩ 1)) :=
  ⟨fun x hx => by simp [DBState.init] at hx,
    c9_writes_deletes_disjoint _ (fun x hx => by simp [DBState.init] at hx) _⟩

/-- C5: after begin; delete_key(k); commit, a subsequent in-transaction
get_key(k) returns the empty string, and when the cache is enabled the
cache holds an entry for k whose value is the tombstone `none`
(present-but-known-absent) rather than having no entry for k. The store
is assumed duplicate-free, as any store satisfying the mapping contract
of spec section 6 is. -/
theorem c5_tombstone_after_committed_delete (s : DBState) (k : String)
    (hact : s.txActive = false)
    (hwf : (s.store.pairs.map Prod.fst).Nodup) :
    (get_key (begin_transaction (commit_transaction (delete_key
        (begin_transaction s).2 k).2).2).2 k).1 = ""
    ∧ (s.cache.isSome = true →
        ∃ c2, (commit_transaction (delete_key
            (begin_transaction s).2 k).2).2.cache = some c2
          ∧ c2.order.find? (fun p => p.1 = k) = some (k, none)) := by
  have h1 : (begin_transaction s).2
      = { s with txActive := true, txData := [], txDeletes := [] } := by
    unfold begin_transaction
    rw [hact]
    simp
  rw [h1]
  rw [delete_key_on_empty_buffer
      { s with txActive := true, txData := [], txDeletes := [] } k rfl rfl rfl]
  rw [commit_single_delete
      (get_key { s with txActive := true, txData := [], txDeletes := [] } k).2 k
      (by rw [get_key_txActive])]
  have hrS : (get_key { s with txActive := true, txData := [], txDeletes := [] } k).2.store = s.store := by
    rw [get_key_store]
  have hrC : (get_key { s with txActive := true, txData := [], txDeletes := [] } k).2.cache.isSome = s.cache.isSome := by
    rw [get_key_cache_isSome]
  rw [hrS]
  cases hsc : s.cache with
  | none =>
      have hrCn : (get_key { cache := none, store := s.store, txActive := true, txData := [], txDeletes := [] } k).2.cache = none := by
        rw [← Option.not_isSome_iff_eq_none, get_key_cache_isSome]
        simp
      rw [hrCn]
      refine ⟨?_, ?_⟩
      · unfold begin_transaction get_key
        simpa using read_erase_self s.store k hwf
      · intro hs
        simp at hs
  | some c =>
      have hrCs : ∃ c2, (get_key { cache := some c, store := s.store, txActive := true, txData := [], txDeletes := [] } k).2.cache = some c2 := by
        rw [← Option.isSome_iff_exists, get_key_cache_isSome]
        rfl
      obtain ⟨c2, hc2⟩ := hrCs
      rw [hc2]
      simp only [Option.map_some]
      constructor
      · unfold begin_transaction get_key
        obtain ⟨hb, htmp⟩ := get_put_self c2 k none
        rcases hg : (c2.put k none).get k with ⟨b, tmp, c3⟩
        rw [hg] at hb htmp
        simp at hb htmp
        subst hb
        subst htmp
        simp [hg]
      · intro _
        exact ⟨c2.put k none, rfl, put_find_self c2 k none⟩

/-- Witness for C5 at a concrete state and key. -/
theorem c5_witness :
    ((DBState.init ⟨[("k", "a"), ("j", "b")]⟩ 2).txActive = false
      ∧ (((DBState.init ⟨[("k", "a"), ("j", "b")]⟩ 2).store.pairs.map
          Prod.fst).Nodup))
    ∧ ((get_key (begin_transaction (commit_transaction (delete_key
          (begin_transaction (DBState.init ⟨[("k", "a"), ("j", "b")]⟩ 2)).2
          "k").2).2).2 "k").1 = ""
      ∧ ((DBState.init ⟨[("k", "a"), ("j", "b")]⟩ 2).cache.isSome = true →
          ∃ c2, (commit_transaction (delete_key (begin_transaction
              (DBState.init ⟨[("k", "a"), ("j", "b")]⟩ 2)).2 "k").2).2.cache
              = some c2
            ∧ c2.order.find? (fun p => p.1 = "k") = some ("k", none))) :=
  ⟨⟨by decide, by decide⟩,
    c5_tombstone_after_committed_delete _ "k" (by decide) (by decide)⟩

/-- Witness for C3 at a concrete state, key and value. -/
theorem c3_witness :
    ((begin_transaction (DBState.init ⟨[("k", "old")]⟩ 2)).2.txActive = true)
    ∧ (get_key (set_key (begin_transaction
        (DBState.init ⟨[("k", "old")]⟩ 2)).2 "k" "v").2 "k").1 = "v" :=
  ⟨by decide, c3_read_your_own_writes _ "k" "v" (by decide)⟩

/-- C7: on a capacity-2 cache, put(A,1); put(B,2); put(C,3) leaves the
cache holding exactly the keys C (most recent) and B, with A evicted;
after get(B), put(D,4) evicts C and not B: each overflowing put of a new
key evicts exactly the current least-recently-used tail entry. -/
theorem c7_lru_eviction_trace :
    ((((Cache.init 2).put "A" (some "1")).put "B" (some "2")).put "C"
        (some "3")).order.map Prod.fst = ["C", "B"]
    ∧ ((((((Cache.init 2).put "A" (some "1")).put "B" (some "2")).put "C"
        (some "3")).get "B").2.2.put "D" (some "4")).order.map Prod.fst
        = ["D", "B"] := by
  decide

/-- C1 (code bug at src/cache/db_cache.cpp line 322): with the store
holding k=v and an empty capacity-1 cache, an in-transaction get_key("k")
misses the cache and returns "v" read from the store, but records a
tombstone (`none`) — not the value it returns — as the cache entry for
"k", so the immediately following lookup of "k" hits the cache and yields
"" instead of "v". -/
theorem c1_miss_populates_tombstone :
    (get_key (begin_transaction (DBState.init ⟨[("k", "v")]⟩ 1)).2 "k").1 = "v"
    ∧ (get_key (begin_transaction (DBState.init ⟨[("k", "v")]⟩ 1)).2 "k").2.cache
        = some { capacity := 1, order := [("k", none)], index := ["k"] }
    ∧ (get_key (get_key (begin_transaction
        (DBState.init ⟨[("k", "v")]⟩ 1)).2 "k").2 "k").1 = "" := by
  decide

/-- C2 (code bug): from the same initial store holding k=v and the same
single-caller sequence begin; get(k); get(k), the cache-disabled facade
answers "v" to the second get while the capacity-1 facade answers "" (the
tombstone recorded by the first miss), so the two configurations do not
return the same results from every operation. -/
theorem c2_cache_mode_divergence :
    (get_key (get_key (begin_transaction
        (DBState.init ⟨[("k", "v")]⟩ 0)).2 "k").2 "k").1 = "v"
    ∧ (get_key (get_key (begin_transaction
        (DBState.init ⟨[("k", "v")]⟩ 1)).2 "k").2 "k").1 = "" := by
  decide

/-- C4 (code bug): on a capacity-1 facade, begin; set(k,"v"); commit puts
k=v in the store; a later transaction reads another key x (evicting k from
the cache), then reads k — getting "v" from the store but caching a
tombstone — and aborts; the next begin; get(k), with no intervening writes
to k anywhere, answers "" instead of "v". -/
theorem c4_commit_visibility_broken :
    (commit_transaction (set_key (begin_transaction
        (DBState.init ⟨[]⟩ 1)).2 "k" "v").2).2.store.read "k" = "v"
    ∧ (get_key (get_key (begin_transaction (commit_transaction (set_key
        (begin_transaction (DBState.init ⟨[]⟩ 1)).2 "k" "v").2).2).2 "x").2
        "k").1 = "v"
    ∧ (get_key (begin_transaction (abort_transaction (get_key (get_key
        (begin_transaction (commit_transaction (set_key (begin_transaction
        (DBState.init ⟨[]⟩ 1)).2 "k" "v").2).2).2 "x").2 "k").2).2).2
        "k").1 = "" := by
  decide

/-- C10: Cache.get of a key not present in the cache map returns false and
no value, and leaves the cache entirely unchanged: no entry is added or
removed and the recency order is not modified. -/
theorem c10_get_miss_leaves_cache_unchanged (c : Cache) (key : String)
    (h : key ∉ c.index) :
    c.get key = (false, none, c) := by
  simp [Cache.get, h]

/-- Witness for C10 at a concrete cache and key. -/
theorem c10_witness :
    ("B" ∉ ((Cache.init 2).put "A" (some "1")).index)
    ∧ ((Cache.init 2).put "A" (some "1")).get "B"
        = (false, none, (Cache.init 2).put "A" (some "1")) :=
  ⟨by decide, c10_get_miss_leaves_cache_unchanged _ "B" (by decide)⟩

/-- C8: begin while a transaction is active fails and changes nothing;
commit and abort with no active transaction fail and change nothing; get,
set and delete with no active transaction return the empty-string sentinel
and leave the whole state (buffer, cache, store) unchanged. -/
theorem c8_wrong_state_ops_are_noops (s t : DBState) (k v : String)
    (ha : s.txActive = true) (hi : t.txActive = false) :
    begin_transaction s = (false, s)
    ∧ commit_transaction t = (false, t)
    ∧ abort_transaction t = (false, t)
    ∧ get_key t k = ("", t)
    ∧ set_key t k v = ("", t)
    ∧ delete_key t k = ("", t) := by
  refine ⟨?_, ?_, ?_, ?_, ?_, ?_⟩ <;>
    simp [begin_transaction, commit_transaction, abort_transaction,
      get_key, set_key, delete_key, ha, hi]

/-- Witness for C8 at concrete states. -/
theorem c8_witness :
    ((begin_transaction (DBState.init ⟨[]⟩ 1)).2.txActive = true
      ∧ (DBState.init ⟨[]⟩ 1).txActive = false)
    ∧ (begin_transaction (begin_transaction (DBState.init ⟨[]⟩ 1)).2
        = (false, (begin_transaction (DBState.init ⟨[]⟩ 1)).2)
      ∧ commit_transaction (DBState.init ⟨[]⟩ 1) = (false, DBState.init ⟨[]⟩ 1)
      ∧ abort_transaction (DBState.init ⟨[]⟩ 1) = (false, DBState.init ⟨[]⟩ 1)
      ∧ get_key (DBState.init ⟨[]⟩ 1) "k" = ("", DBState.init ⟨[]⟩ 1)
      ∧ set_key (DBState.init ⟨[]⟩ 1) "k" "v" = ("", DBState.init ⟨[]⟩ 1)
      ∧ delete_key (DBState.init ⟨[]⟩ 1) "k" = ("", DBState.init ⟨[]⟩ 1)) :=
  ⟨⟨by decide, by decide⟩,
    c8_wrong_state_ops_are_noops _ _ "k" "v" (by decide) (by decide)⟩

end DBCache
